import Mathlib

/-!
Shallow embedding of `src/download_datasets.py` (JasonP02/Tokenthing).

The script reads a configuration entry `hf_dataset_names`, normalizes it to a
list of dataset identifiers, and for each identifier fetches the dataset from a
remote provider, chooses a split, extracts one text value per record by a fixed
field-preference rule, and writes the values one per line to
`<identifier with / replaced by _>.txt`.  Any failure while processing one
identifier is caught and reported, and the loop continues.

The remote provider is modelled as a function from identifier to
`Except String Splits` (the `String` being the printed exception description);
the file system is modelled by returning the written file name and its content
as a list of characters (a partial content when the write fails midway).
-/

namespace Tokenthing

/-- A record field value.  Python record fields are heterogeneously typed; the
script only distinguishes strings (`isinstance(value, str)`) from everything
else, so we model strings, integers and booleans. -/
inductive Value where
  | str (s : String)
  | int (n : Int)
  | bool (b : Bool)
deriving DecidableEq, Repr

/-- A record: a Python dict from field name to value, in insertion order. -/
abbrev Record := List (String × Value)

/-- A fetched dataset: a mapping from split name to its records, in
provider-returned order (Python `DatasetDict`). -/
abbrev Splits := List (String × List Record)

/-- Python dict lookup `d[k]` / membership `k in d` (first matching key). -/
def dictGet (k : String) : List (String × α) → Option α
  | [] => none
  | (k₂, v) :: rest => if k₂ = k then some v else dictGet k rest

/-- `isinstance(value, str)`. -/
def isStr : Value → Bool
  | .str _ => true
  | _ => false

/-- The fallback scan (lines 39-42 of the source): the value of the first
field whose value is a string, if any.
`for key, value in item.items(): if isinstance(value, str): ... break`. -/
def firstString : Record → Option Value
  | [] => none
  | (_, v) :: rest => if isStr v then some v else firstString rest

/-- Text selection for one record (lines 33-42 of the source):
`item['text']` if the key is present, else `item['content']` if present,
else the first string-valued field, else nothing. -/
def selectText (item : Record) : Option Value :=
  match dictGet "text" item with
  | some v => some v
  | none =>
    match dictGet "content" item with
    | some v => some v
    | none => firstString item

/-- The `texts` list built by the loop over `train_data` (lines 31-42):
one selected value per record that yields one, in iteration order. -/
def extractTexts (records : List Record) : List Value :=
  records.filterMap selectText

/-- Split selection (lines 25-28): `dataset['train']` when `'train' in
dataset`, else `list(dataset.values())[0]`; `none` models the `IndexError`
raised when the dataset has no splits at all. -/
def chooseSplit (dataset : Splits) : Option (List Record) :=
  match dictGet "train" dataset with
  | some records => some records
  | none => dataset.head?.map Prod.snd

/-- Whitespace characters stripped by Python `str.strip()` (ASCII range). -/
def isPySpace (c : Char) : Bool :=
  c = ' ' || c = '\t' || c = '\n' || c = '\r' || c = (Char.ofNat 11) || c = (Char.ofNat 12)

/-- `str.strip()` on a character list: drop whitespace at both ends. -/
def stripList (l : List Char) : List Char :=
  (((l.dropWhile isPySpace).reverse.dropWhile isPySpace)).reverse

/-- Python `name.strip()`. -/
def pyStrip (s : String) : String := String.mk (stripList s.data)

/-- Prepend a character to the first piece of a split result. -/
def consHead (c : Char) : List (List Char) → List (List Char)
  | [] => [[c]]
  | piece :: rest => (c :: piece) :: rest

/-- Split a character list at every occurrence of `sep`, keeping empty
pieces, as Python `str.split(sep)` does (`""` gives `[""]`,
`"a,,b"` gives `["a","","b"]`). -/
def splitChar (sep : Char) : List Char → List (List Char)
  | [] => [[]]
  | c :: cs =>
    if c = sep then [] :: splitChar sep cs else consHead c (splitChar sep cs)

/-- Python `dataset_names.split(',')`. -/
def pySplitComma (s : String) : List String :=
  (splitChar ',' s.data).map String.mk

/-- The `hf_dataset_names` configuration entry: YAML gives either a single
string or a list of strings. -/
inductive ConfigValue where
  | str (s : String)
  | list (names : List String)
deriving DecidableEq, Repr

/-- Normalization of the entry (lines 14-15): a string is split on `,` and
each component stripped; a list is used as is. -/
def normalize : ConfigValue → List String
  | .str s => (pySplitComma s).map pyStrip
  | .list names => names

/-- Console lines printed by the script. -/
inductive Line where
  | loading (name : String)
  | saved (n : Nat) (file : String)
  | error (name : String) (msg : String)
deriving DecidableEq, Repr

/-- Description of the `IndexError` from `list(dataset.values())[0]` on a
dataset with no splits. -/
def indexErrorMsg : String := "list index out of range"

/-- Description of the `TypeError` from `text + chr(10)` when a selected
value is not a string. -/
def typeErrorMsg : String := "unsupported operand type for +"

/-- Character-level effect of `dataset_name.replace(chr(47), chr(95))`. -/
def replChar (c : Char) : Char := if c = '/' then '_' else c

/-- The inverse substitution, used to show `replChar` is injective on
identifiers containing no underscore. -/
def unreplChar (c : Char) : Char := if c = '_' then '/' else c

/-- Output filename derivation (lines 45-46):
`dataset_name.replace(chr(47), chr(95)) + ".txt"`. -/
def safeName (name : String) : String :=
  String.mk (name.data.map replChar)

/-- `f"{safe_name}.txt"`. -/
def outputFile (name : String) : String := safeName name ++ ".txt"

/-- The write loop (lines 49-51): `for text in texts: f.write(text + chr(10))`.
Returns the characters actually written and whether the loop completed;
a non-string value raises `TypeError` after the earlier values were already
written, so the content up to that point remains. -/
def writeLoop : List Value → List Char × Bool
  | [] => ([], true)
  | .str s :: rest =>
    let r := writeLoop rest
    (s.data ++ '\n' :: r.1, r.2)
  | _ :: _ => ([], false)

/-- Processing of one identifier inside the `try` block (lines 20-53), given
the provider response: returns the printed lines and, when the output file was
opened, its name and final content (partial on a write failure). -/
def exportOne (name : String) (fetched : Except String Splits) :
    List Line × Option (String × List Char) :=
  match fetched with
  | .error e => ([.error name e], none)
  | .ok dataset =>
    match chooseSplit dataset with
    | none => ([.error name indexErrorMsg], none)
    | some records =>
      let texts := extractTexts records
      let out := outputFile name
      let w := writeLoop texts
      if w.2 then
        ([.saved texts.length out], some (out, w.1))
      else
        ([.error name typeErrorMsg], some (out, w.1))

/-- One iteration of the `for dataset_name in dataset_names` loop
(lines 17-56): the loading line, then the try/except body. -/
def processOne (fetch : String → Except String Splits) (name : String) :
    List Line × Option (String × List Char) :=
  let r := exportOne name (fetch name)
  (.loading name :: r.1, r.2)

/-- All console lines of `download_and_save_datasets` after normalization. -/
def exportAll (cv : ConfigValue) (fetch : String → Except String Splits) :
    List Line :=
  (normalize cv).flatMap fun name => (processOne fetch name).1

/-- All files written by `download_and_save_datasets`, as (name, content)
pairs in processing order. -/
def exportAllFiles (cv : ConfigValue) (fetch : String → Except String Splits) :
    List (String × List Char) :=
  (normalize cv).filterMap fun name => (processOne fetch name).2

/-- Outcome of a whole run: aborted before any dataset was processed (config
read/parse failure or missing entry), or completed with console lines and
written files. -/
inductive RunResult where
  | aborted
  | completed (lines : List Line) (files : List (String × List Char))
deriving DecidableEq, Repr

/-- The whole run: `load_config` may fail (modelled by `none`), the entry
lookup `config['hf_dataset_names']` may raise `KeyError`; both abort the run
before any dataset is processed.  Otherwise every identifier is processed. -/
def run (cfg : Option (List (String × ConfigValue)))
    (fetch : String → Except String Splits) : RunResult :=
  match cfg with
  | none => .aborted
  | some m =>
    match dictGet "hf_dataset_names" m with
    | none => .aborted
    | some cv => .completed (exportAll cv fetch) (exportAllFiles cv fetch)

/-- The identifiers announced by `Loading dataset:` lines, in order; each
corresponds to exactly one fetch attempt. -/
def loadingIds (lines : List Line) : List String :=
  lines.filterMap fun l =>
    match l with
    | .loading n => some n
    | _ => none

/-- The strings of a value list when all values are strings, else `none`. -/
def asStrings : List Value → Option (List String)
  | [] => some []
  | .str s :: rest => (asStrings rest).map (s :: ·)
  | _ :: _ => none

/-- The file content produced by writing each string followed by a newline. -/
def linesContent (ss : List String) : List Char :=
  ss.foldr (fun s acc => s.data ++ '\n' :: acc) []

/-- The longest all-string prefix of a value list, as strings. -/
def strTake : List Value → List String
  | .str s :: rest => s :: strTake rest
  | _ => []

/-- Number of newline characters, i.e. the number of newline-terminated
lines of a file content. -/
def countNl (cs : List Char) : Nat := cs.count '\n'

/-! ## Helper lemmas -/

theorem stripList_eq (l : List Char) :
    stripList l = List.rdropWhile isPySpace (List.dropWhile isPySpace l) := rfl

theorem dropWhile_eq_self_of_append (p : Char → Bool) :
    ∀ (m t : List Char), List.dropWhile p (m ++ t) = m ++ t →
      List.dropWhile p m = m := by
  intro m t h
  cases m with
  | nil => rfl
  | cons c cs =>
    rw [List.cons_append, List.dropWhile_cons] at h
    rw [List.dropWhile_cons]
    split at h
    next hc =>
      exfalso
      have hle : (List.dropWhile p (cs ++ t)).length ≤ (cs ++ t).length :=
        (List.dropWhile_suffix p).length_le
      rw [h] at hle
      simp at hle
    next hc =>
      simp [hc]

theorem dropWhile_stripList (l : List Char) :
    List.dropWhile isPySpace (stripList l) = stripList l := by
  obtain ⟨t, ht⟩ :=
    (List.rdropWhile_prefix isPySpace (List.dropWhile isPySpace l) : _)
  have key : List.dropWhile isPySpace (stripList l ++ t) = stripList l ++ t := by
    rw [stripList_eq, ht]
    exact List.dropWhile_idempotent isPySpace l
  exact dropWhile_eq_self_of_append isPySpace _ t key

theorem stripList_idem (l : List Char) : stripList (stripList l) = stripList l := by
  calc stripList (stripList l)
      = List.rdropWhile isPySpace (List.dropWhile isPySpace (stripList l)) :=
        stripList_eq _
    _ = List.rdropWhile isPySpace (stripList l) := by rw [dropWhile_stripList]
    _ = List.rdropWhile isPySpace
          (List.rdropWhile isPySpace (List.dropWhile isPySpace l)) := rfl
    _ = List.rdropWhile isPySpace (List.dropWhile isPySpace l) :=
        List.rdropWhile_idempotent isPySpace _
    _ = stripList l := rfl

theorem pyStrip_idem (s : String) : pyStrip (pyStrip s) = pyStrip s :=
  congrArg String.mk (stripList_idem s.data)

theorem splitChar_sep_append (sep : Char) :
    ∀ (xs rest : List Char), sep ∉ xs →
      splitChar sep (xs ++ sep :: rest) = xs :: splitChar sep rest := by
  intro xs
  induction xs with
  | nil =>
    intro rest h
    simp [splitChar]
  | cons c cs ih =>
    intro rest h
    have hc : ¬(c = sep) := fun he => h (he ▸ List.mem_cons_self c cs)
    have hcs : sep ∉ cs := fun hm => h (List.mem_cons_of_mem _ hm)
    rw [List.cons_append]
    show (if c = sep then [] :: splitChar sep (cs ++ sep :: rest)
        else consHead c (splitChar sep (cs ++ sep :: rest)))
      = (c :: cs) :: splitChar sep rest
    rw [if_neg hc, ih rest hcs]
    rfl

theorem splitChar_linesContent (ss : List String)
    (h : ∀ s ∈ ss, '\n' ∉ s.data) :
    splitChar '\n' (linesContent ss) = ss.map String.data ++ [[]] := by
  induction ss with
  | nil => rfl
  | cons s rest ih =>
    have hs : '\n' ∉ s.data := h s (List.mem_cons_self _ _)
    have hr := ih fun x hx => h x (List.mem_cons_of_mem _ hx)
    show splitChar '\n' (s.data ++ '\n' :: linesContent rest) = _
    rw [splitChar_sep_append '\n' s.data (linesContent rest) hs, hr]
    rfl

theorem writeLoop_eq (ts : List Value) :
    writeLoop ts = (linesContent (strTake ts), ts.all isStr) := by
  induction ts with
  | nil => rfl
  | cons v rest ih =>
    cases v with
    | str s => simp [writeLoop, strTake, linesContent, ih, List.all_cons, isStr]
    | int n => simp [writeLoop, strTake, linesContent, List.all_cons, isStr]
    | bool b => simp [writeLoop, strTake, linesContent, List.all_cons, isStr]

theorem asStrings_spec (ts : List Value) (ss : List String)
    (h : asStrings ts = some ss) :
    strTake ts = ss ∧ ts.all isStr = true ∧ ts.length = ss.length := by
  induction ts generalizing ss with
  | nil =>
    simp only [asStrings, Option.some.injEq] at h
    subst h
    exact ⟨rfl, rfl, rfl⟩
  | cons v rest ih =>
    cases v with
    | str s =>
      simp only [asStrings, Option.map_eq_some'] at h
      obtain ⟨ss', hss', rfl⟩ := h
      obtain ⟨h₁, h₂, h₃⟩ := ih ss' hss'
      refine ⟨?_, ?_, ?_⟩
      · simp [strTake, h₁]
      · simp [List.all_cons, isStr, h₂]
      · simp [h₃]
    | int n => simp [asStrings] at h
    | bool b => simp [asStrings] at h

theorem exportOne_line_shape (name : String) (fetched : Except String Splits) :
    (∃ n f, (exportOne name fetched).1 = [Line.saved n f]) ∨
    (∃ e, (exportOne name fetched).1 = [Line.error name e]) := by
  cases fetched with
  | error e => exact Or.inr ⟨e, rfl⟩
  | ok dataset =>
    cases h : chooseSplit dataset with
    | none => exact Or.inr ⟨indexErrorMsg, by simp [exportOne, h]⟩
    | some records =>
      by_cases hw : (writeLoop (extractTexts records)).2
      · exact Or.inl ⟨(extractTexts records).length, outputFile name,
          by simp [exportOne, h, hw]⟩
      · exact Or.inr ⟨typeErrorMsg, by simp [exportOne, h, hw]⟩

theorem loadingIds_append (xs ys : List Line) :
    loadingIds (xs ++ ys) = loadingIds xs ++ loadingIds ys :=
  List.filterMap_append xs ys _

theorem loadingIds_processOne (fetch : String → Except String Splits)
    (name : String) : loadingIds (processOne fetch name).1 = [name] := by
  rcases exportOne_line_shape name (fetch name) with ⟨n, f, hs⟩ | ⟨e, hs⟩ <;>
    simp [processOne, loadingIds, hs]

theorem loadingIds_flatMap (fetch : String → Except String Splits)
    (ids : List String) :
    loadingIds (ids.flatMap fun name => (processOne fetch name).1) = ids := by
  induction ids with
  | nil => rfl
  | cons hd tl ih =>
    rw [List.flatMap_cons, loadingIds_append, loadingIds_processOne, ih]
    rfl

theorem loadingIds_exportAll (cv : ConfigValue)
    (fetch : String → Except String Splits) :
    loadingIds (exportAll cv fetch) = normalize cv :=
  loadingIds_flatMap fetch (normalize cv)

theorem firstString_eq_none (item : Record)
    (h : ∀ pair ∈ item, isStr pair.2 = false) : firstString item = none := by
  induction item with
  | nil => rfl
  | cons hd tl ih =>
    obtain ⟨k, v⟩ := hd
    have hv : isStr v = false := h (k, v) (List.mem_cons_self _ _)
    simp only [firstString, hv]
    exact ih fun pair hp => h pair (List.mem_cons_of_mem _ hp)

theorem firstString_isStr (item : Record) (v : Value)
    (h : firstString item = some v) : isStr v = true := by
  induction item with
  | nil => simp [firstString] at h
  | cons hd tl ih =>
    obtain ⟨k, w⟩ := hd
    simp only [firstString] at h
    split at h
    · cases h
      assumption
    · exact ih h

theorem selectText_no_text_content (item : Record)
    (h₁ : dictGet "text" item = none) (h₂ : dictGet "content" item = none) :
    selectText item = firstString item := by
  simp [selectText, h₁, h₂]

theorem map_unrepl_repl (l : List Char) (h : '_' ∉ l) :
    (l.map replChar).map unreplChar = l := by
  rw [List.map_map]
  have : ∀ c ∈ l, (unreplChar ∘ replChar) c = id c := by
    intro c hc
    have hcu : c ≠ '_' := fun he => h (he ▸ hc)
    by_cases hs : c = '/'
    · simp [replChar, unreplChar, hs]
    · simp [replChar, unreplChar, hs, hcu]
  rw [List.map_congr_left this, List.map_id]

theorem safeName_inj (a b : String) (ha : '_' ∉ a.data) (hb : '_' ∉ b.data)
    (h : safeName a = safeName b) : a = b := by
  have hd : a.data.map replChar = b.data.map replChar := congrArg String.data h
  have : a.data = b.data := by
    rw [← map_unrepl_repl a.data ha, ← map_unrepl_repl b.data hb, hd]
  exact String.ext this

/-! ## Claim theorems -/

/-- C1: the text value of a record is chosen by the fixed precedence: the
`text` field if present, else the `content` field if present, else the first
string-valued field in record order, else the record yields nothing; on the
four example records exactly the values "a", "b", "c" are produced in order,
and the exported file holds exactly those three lines. -/
theorem select_text_precedence :
    (∀ (item : Record) (v : Value), dictGet "text" item = some v →
      selectText item = some v) ∧
    (∀ (item : Record) (v : Value), dictGet "text" item = none →
      dictGet "content" item = some v → selectText item = some v) ∧
    (∀ (item : Record), dictGet "text" item = none →
      dictGet "content" item = none → selectText item = firstString item) ∧
    (∀ (item : Record), dictGet "text" item = none →
      dictGet "content" item = none → (∀ pair ∈ item, isStr pair.2 = false) →
      selectText item = none) ∧
    extractTexts [[("text", .str "a")], [("content", .str "b")],
        [("other", .str "c")], [("n", .int 5)]]
      = [.str "a", .str "b", .str "c"] ∧
    exportOne "d" (.ok [("train", [[("text", .str "a")], [("content", .str "b")],
        [("other", .str "c")], [("n", .int 5)]])])
      = ([.saved 3 "d.txt"], some ("d.txt", ['a', '\n', 'b', '\n', 'c', '\n'])) := by
  refine ⟨?_, ?_, ?_, ?_, by decide, by decide⟩
  · intro item v h
    simp [selectText, h]
  · intro item v h₁ h₂
    simp [selectText, h₁, h₂]
  · intro item h₁ h₂
    exact selectText_no_text_content item h₁ h₂
  · intro item h₁ h₂ h₃
    rw [selectText_no_text_content item h₁ h₂]
    exact firstString_eq_none item h₃

theorem select_text_precedence_witness :
    selectText [("text", Value.str "a")] = some (Value.str "a") ∧
    selectText [("k", Value.int 1), ("content", Value.str "b")]
      = some (Value.str "b") ∧
    selectText [("n", Value.int 5)] = none :=
  ⟨select_text_precedence.1 _ _ rfl,
   select_text_precedence.2.1 _ _ rfl rfl,
   select_text_precedence.2.2.2.1 _ rfl rfl (by decide)⟩

/-- C2: split selection uses the split named "train" when present, else the
first provider-returned split; a dataset whose only split is "validation"
exports the records of "validation". -/
theorem choose_split_train_preference :
    (∀ (dataset : Splits) (records : List Record),
      dictGet "train" dataset = some records →
      chooseSplit dataset = some records) ∧
    (∀ (dataset : Splits), dictGet "train" dataset = none →
      chooseSplit dataset = dataset.head?.map Prod.snd) ∧
    (∀ (records : List Record), chooseSplit [("validation", records)] = some records) ∧
    exportOne "d" (.ok [("validation", [[("text", Value.str "v")]])])
      = ([.saved 1 "d.txt"], some ("d.txt", ['v', '\n'])) := by
  refine ⟨?_, ?_, ?_, by decide⟩
  · intro dataset records h
    simp [chooseSplit, h]
  · intro dataset h
    simp [chooseSplit, h]
  · intro records
    rfl

theorem choose_split_train_preference_witness :
    chooseSplit [("train", ([[("text", Value.str "t")]] : List Record))]
      = some [[("text", Value.str "t")]] ∧
    chooseSplit [] = (([] : Splits).head?.map Prod.snd) :=
  ⟨choose_split_train_preference.1 _ _ rfl,
   choose_split_train_preference.2.1 [] rfl⟩

/-- C6 counterexample: a record whose `text` field holds a non-string is
selected as-is, so a non-string value is appended to the in-memory
sequence, contradicting the claim that only string values are produced. -/
theorem select_text_nonstring_counterexample :
    selectText [("text", Value.int 5)] = some (Value.int 5) ∧
    isStr (Value.int 5) = false :=
  ⟨rfl, rfl⟩

/-- C6 amended: only the fallback scan is restricted to string-valued
fields: when neither `text` nor `content` is present, every selected value
is a string; the `text` and `content` branches return the field value
regardless of its type. -/
theorem fallback_only_selects_strings :
    ∀ (item : Record) (v : Value), dictGet "text" item = none →
      dictGet "content" item = none → selectText item = some v →
      isStr v = true := by
  intro item v h₁ h₂ h₃
  rw [selectText_no_text_content item h₁ h₂] at h₃
  exact firstString_isStr item v h₃

theorem fallback_only_selects_strings_witness :
    isStr (Value.str "s") = true :=
  fallback_only_selects_strings [("k", Value.str "s")] (Value.str "s") rfl rfl rfl

/-- C7 counterexample: filename derivation is not injective on identifiers:
the distinct identifiers "a/b" and "a_b" both write "a_b.txt". -/
theorem output_file_collision :
    outputFile "a/b" = outputFile "a_b" ∧ "a/b" ≠ "a_b" := by
  decide

/-- C7 amended: the output filename replaces every `/` of the identifier by
`_` and appends ".txt" (so "org/name" yields exactly "org_name.txt"), and
two distinct identifiers write distinct files whenever neither contains an
underscore; identifiers differing only by `/` versus `_` may collide. -/
theorem output_file_derivation :
    outputFile "org/name" = "org_name.txt" ∧
    ∀ (a b : String), '_' ∉ a.data → '_' ∉ b.data → a ≠ b →
      outputFile a ≠ outputFile b := by
  refine ⟨by decide, ?_⟩
  intro a b ha hb hne h
  apply hne
  apply safeName_inj a b ha hb
  have hd : (safeName a).data ++ ".txt".data = (safeName b).data ++ ".txt".data := by
    have := congrArg String.data h
    rwa [outputFile, outputFile, String.data_append, String.data_append] at this
  have : (safeName a).data = (safeName b).data := List.append_cancel_right hd
  exact String.ext this

theorem output_file_derivation_witness :
    outputFile "org/name" = "org_name.txt" ∧ outputFile "x" ≠ outputFile "y" :=
  ⟨output_file_derivation.1,
   output_file_derivation.2 "x" "y" (by decide) (by decide) (by decide)⟩

/-- C9: the exporter is deterministic: two runs on the same configuration
value with a provider returning the same responses produce identical console
lines and byte-identical output files. -/
theorem export_deterministic :
    ∀ (cv₁ cv₂ : ConfigValue) (fetch₁ fetch₂ : String → Except String Splits),
      cv₁ = cv₂ → (∀ n, fetch₁ n = fetch₂ n) →
      exportAll cv₁ fetch₁ = exportAll cv₂ fetch₂ ∧
      exportAllFiles cv₁ fetch₁ = exportAllFiles cv₂ fetch₂ := by
  intro cv₁ cv₂ f₁ f₂ hcv hf
  subst hcv
  have hfe : f₁ = f₂ := funext hf
  subst hfe
  exact ⟨rfl, rfl⟩

theorem export_deterministic_witness :
    exportAll (.str "org/ds1") (fun _ => .error "e")
      = exportAll (.str "org/ds1") (fun _ => .error "e") ∧
    exportAllFiles (.str "org/ds1") (fun _ => .error "e")
      = exportAllFiles (.str "org/ds1") (fun _ => .error "e") :=
  export_deterministic _ _ _ _ rfl (fun _ => rfl)

/-- C10: when the chosen split has no records, or no record yields a value,
the export does not fail: the output file is still written with empty
content and a saved count of 0 is reported. -/
theorem empty_extraction_zero_saved :
    ∀ (name : String) (dataset : Splits) (records : List Record),
      chooseSplit dataset = some records → extractTexts records = [] →
      exportOne name (.ok dataset)
        = ([Line.saved 0 (outputFile name)], some (outputFile name, [])) := by
  intro name dataset records h₁ h₂
  simp [exportOne, h₁, h₂, writeLoop]

theorem empty_extraction_zero_saved_witness :
    exportOne "d" (.ok [("train", [])])
      = ([Line.saved 0 (outputFile "d")], some (outputFile "d", [])) :=
  empty_extraction_zero_saved "d" [("train", [])] [] rfl rfl

/-- C3 counterexample: a string entry with an empty component keeps the
empty string in the normalized sequence: `"a,,b"` normalizes to
`["a", "", "b"]`, so the normalized sequence is not empty-free. -/
theorem normalize_empty_component_counterexample :
    normalize (.str "a,,b") = ["a", "", "b"] ∧
    "" ∈ normalize (.str "a,,b") := by
  decide

/-- C3 amended: a string entry is split on `,` and each component stripped
of surrounding whitespace (so every identifier in the sequence is trimmed),
but empty components are kept, so an identifier may be the empty string; for
the entry "org/ds1, org/ds2" exactly two fetches are attempted, for
"org/ds1" and "org/ds2", in order. -/
theorem normalize_trimmed_split :
    (∀ (s x : String), x ∈ normalize (.str s) → pyStrip x = x) ∧
    normalize (.str "org/ds1, org/ds2") = ["org/ds1", "org/ds2"] ∧
    (∀ (fetch : String → Except String Splits),
      loadingIds (exportAll (.str "org/ds1, org/ds2") fetch)
        = ["org/ds1", "org/ds2"]) := by
  refine ⟨?_, by decide, ?_⟩
  · intro s x hx
    simp only [normalize, List.mem_map] at hx
    obtain ⟨y, _, rfl⟩ := hx
    exact pyStrip_idem y
  · intro fetch
    rw [loadingIds_exportAll]
    decide

theorem normalize_trimmed_split_witness :
    pyStrip "org/ds1" = "org/ds1" ∧
    loadingIds (exportAll (.str "org/ds1, org/ds2") (fun _ => .error "boom"))
      = ["org/ds1", "org/ds2"] :=
  ⟨normalize_trimmed_split.1 "org/ds1, org/ds2" "org/ds1" (by decide),
   normalize_trimmed_split.2.2 (fun _ => .error "boom")⟩

/-- C4: a run aborts only when the configuration cannot be read or its
entry is missing, and then before any dataset is processed; otherwise it
completes regardless of per-identifier failures: every failing identifier
gets an error line naming it, every identifier in the normalized sequence
is attempted exactly once in order, and each attempt reports either a
saved count or an error naming the identifier. -/
theorem per_identifier_error_handling :
    (∀ (fetch : String → Except String Splits), run none fetch = RunResult.aborted) ∧
    (∀ (m : List (String × ConfigValue)) (fetch : String → Except String Splits),
      dictGet "hf_dataset_names" m = none → run (some m) fetch = RunResult.aborted) ∧
    (∀ (m : List (String × ConfigValue)) (cv : ConfigValue)
      (fetch : String → Except String Splits),
      dictGet "hf_dataset_names" m = some cv →
      run (some m) fetch
        = RunResult.completed (exportAll cv fetch) (exportAllFiles cv fetch)) ∧
    (∀ (cv : ConfigValue) (fetch : String → Except String Splits) (name e : String),
      name ∈ normalize cv → fetch name = .error e →
      Line.error name e ∈ exportAll cv fetch) ∧
    (∀ (cv : ConfigValue) (fetch : String → Except String Splits),
      loadingIds (exportAll cv fetch) = normalize cv) ∧
    (∀ (name : String) (fetched : Except String Splits),
      (∃ n f, (exportOne name fetched).1 = [Line.saved n f]) ∨
      (∃ e, (exportOne name fetched).1 = [Line.error name e])) := by
  refine ⟨fun _ => rfl, ?_, ?_, ?_, loadingIds_exportAll, exportOne_line_shape⟩
  · intro m fetch h
    simp [run, h]
  · intro m cv fetch h
    simp [run, h]
  · intro cv fetch name e hmem hfe
    refine List.mem_flatMap.mpr ⟨name, hmem, ?_⟩
    simp [processOne, exportOne, hfe]

theorem per_identifier_error_handling_witness :
    run none (fun _ => .error "boom") = RunResult.aborted ∧
    run (some [("other_key", ConfigValue.str "x")]) (fun _ => .error "boom")
      = RunResult.aborted ∧
    run (some [("hf_dataset_names", ConfigValue.str "org/ds1, org/ds2")])
        (fun _ => .error "boom")
      = RunResult.completed
          (exportAll (.str "org/ds1, org/ds2") (fun _ => .error "boom"))
          (exportAllFiles (.str "org/ds1, org/ds2") (fun _ => .error "boom")) ∧
    Line.error "org/ds1" "boom"
      ∈ exportAll (.str "org/ds1, org/ds2") (fun _ => .error "boom") :=
  ⟨per_identifier_error_handling.1 _,
   per_identifier_error_handling.2.1 _ _ rfl,
   per_identifier_error_handling.2.2.1 _ _ _ rfl,
   per_identifier_error_handling.2.2.2.1 _ _ "org/ds1" "boom" (by decide) rfl⟩

/-- C5 counterexample: a record whose selected value contains a newline is
exported successfully as one saved sample, yet the written file consists of
two newline-terminated lines, "x" and "y", neither of which equals the
record's selected value "x\ny"; so the line count can differ from the
number of contributing records and a line need not equal any selected
value. -/
theorem round_trip_newline_counterexample :
    exportOne "d" (.ok [("train", [[("text", Value.str "x\ny")]])])
      = ([Line.saved 1 "d.txt"], some ("d.txt", ['x', '\n', 'y', '\n'])) ∧
    extractTexts [[("text", Value.str "x\ny")]] = [Value.str "x\ny"] ∧
    countNl ['x', '\n', 'y', '\n'] = 2 ∧
    splitChar '\n' ['x', '\n', 'y', '\n'] = [['x'], ['y'], []] ∧
    "x" ≠ "x\ny" ∧ "y" ≠ "x\ny" := by
  decide

/-- C5 amended: for a successfully exported dataset the file content is
exactly the concatenation of each selected value followed by one newline, in
split-iteration order, and the saved count is the number of contributing
records; provided no selected value itself contains a newline, splitting the
content at newlines yields exactly the selected values in order (followed by
the empty piece after the final newline), so every line equals the selected
value of its record and the line count equals the number of contributing
records. -/
theorem round_trip_lines :
    ∀ (name : String) (dataset : Splits) (records : List Record) (ss : List String),
      chooseSplit dataset = some records →
      asStrings (extractTexts records) = some ss →
      exportOne name (.ok dataset)
        = ([Line.saved ss.length (outputFile name)],
           some (outputFile name, linesContent ss)) ∧
      ((∀ s ∈ ss, '\n' ∉ s.data) →
        splitChar '\n' (linesContent ss) = ss.map String.data ++ [[]]) := by
  intro name dataset records ss h₁ h₂
  obtain ⟨hst, hall, hlen⟩ := asStrings_spec _ _ h₂
  constructor
  · have hw : writeLoop (extractTexts records) = (linesContent ss, true) := by
      rw [writeLoop_eq, hst, hall]
    simp [exportOne, h₁, hw, hlen]
  · intro hnl
    exact splitChar_linesContent ss hnl

theorem round_trip_lines_witness :
    exportOne "d" (.ok [("train", [[("text", Value.str "a")], [("other", Value.int 7)]])])
      = ([Line.saved (["a"].length) (outputFile "d")],
         some (outputFile "d", linesContent ["a"])) ∧
    splitChar '\n' (linesContent ["a"]) = ["a"].map String.data ++ [[]] := by
  have h := round_trip_lines "d"
    [("train", [[("text", Value.str "a")], [("other", Value.int 7)]])]
    [[("text", Value.str "a")], [("other", Value.int 7)]] ["a"] rfl rfl
  exact ⟨h.1, h.2 (by decide)⟩

/-- C8 counterexample: a write failure is not atomic: for a train split
whose first record selects the string "a" and whose second selects the
integer 5, the error path is taken (the TypeError is caught and reported)
and yet an output file "d.txt" containing the partial content "a"
plus newline was produced. -/
theorem partial_file_counterexample :
    exportOne "d" (.ok [("train", [[("text", Value.str "a")], [("text", Value.int 5)]])])
      = ([Line.error "d" typeErrorMsg], some ("d.txt", ['a', '\n'])) ∧
    some ("d.txt", ['a', '\n']) ≠ (none : Option (String × List Char)) := by
  decide

/-- C8 amended: a failure before the output file is opened (fetch failure,
or a dataset with no splits) produces no output file; a failure while
writing leaves a partial output file containing exactly the
newline-terminated values of the longest all-string prefix of the selected
values. -/
theorem failure_file_behavior :
    (∀ (name e : String), exportOne name (.error e) = ([Line.error name e], none)) ∧
    (∀ (name : String), exportOne name (.ok [])
      = ([Line.error name indexErrorMsg], none)) ∧
    (∀ (name : String) (dataset : Splits) (records : List Record),
      chooseSplit dataset = some records →
      (extractTexts records).all isStr = false →
      exportOne name (.ok dataset)
        = ([Line.error name typeErrorMsg],
           some (outputFile name, linesContent (strTake (extractTexts records))))) := by
  refine ⟨fun name e => rfl, fun name => rfl, ?_⟩
  intro name dataset records h₁ h₂
  have hw : writeLoop (extractTexts records)
      = (linesContent (strTake (extractTexts records)), false) := by
    rw [writeLoop_eq, h₂]
  simp [exportOne, h₁, hw]

theorem failure_file_behavior_witness :
    exportOne "d" (.error "boom") = ([Line.error "d" "boom"], none) ∧
    exportOne "d" (.ok []) = ([Line.error "d" indexErrorMsg], none) ∧
    exportOne "d" (.ok [("train", [[("text", Value.int 5)]])])
      = ([Line.error "d" typeErrorMsg],
         some (outputFile "d",
           linesContent (strTake (extractTexts [[("text", Value.int 5)]])))) :=
  ⟨failure_file_behavior.1 "d" "boom",
   failure_file_behavior.2.1 "d",
   failure_file_behavior.2.2 "d" _ _ rfl (by decide)⟩

end Tokenthing
